import Mathlib

/-!
Verification development for the kafka-connect-operator charm.

The Python sources are shallowly embedded: Python strings are Lean `String`
(a wrapper around `List Char`), Python dicts over string keys are modelled as
insertion-ordered association lists with in-place update, and the file-system
and relation-data state touched by the managers is passed explicitly.
-/

set_option autoImplicit false

namespace KafkaConnect

/-! ### Python string primitives

`splitCh` models Python `str.split(sep)` for a one-character separator
(both uses in the sources, `":"` and `"\n"`, are one character wide);
`pystripData` models Python `str.strip()` (whitespace characters are
modelled by `Char.isWhitespace`); `pyjoinData` models `sep.join(...)`.
-/

def wsChar (c : Char) : Bool := c.isWhitespace

def splitCh (c : Char) : List Char → List (List Char)
  | [] => [[]]
  | x :: xs =>
    if x = c then [] :: splitCh c xs
    else
      match splitCh c xs with
      | [] => [[x]]
      | h :: t => (x :: h) :: t

def pysplit (sep : Char) (s : String) : List String :=
  (splitCh sep s.data).map (fun l => String.mk l)

def dropTrail (p : Char → Bool) (l : List Char) : List Char :=
  (l.reverse.dropWhile p).reverse

def pystripData (l : List Char) : List Char :=
  dropTrail wsChar (l.dropWhile wsChar)

def pystrip (s : String) : String := String.mk (pystripData s.data)

def pyjoinData (c : Char) : List (List Char) → List Char
  | [] => []
  | [a] => a
  | a :: b :: rest => a ++ c :: pyjoinData c (b :: rest)

def pyjoin (sep : Char) (ls : List String) : String :=
  String.mk (pyjoinData sep (ls.map String.data))

theorem data_append (a b : String) : (a ++ b).data = a.data ++ b.data := rfl

theorem mk_data (s : String) : String.mk s.data = s := rfl

theorem splitCh_ne_nil (c : Char) (l : List Char) : splitCh c l ≠ [] := by
  induction l with
  | nil => simp [splitCh]
  | cons x xs ih =>
    simp only [splitCh]
    split
    · simp
    · split
      · simp
      · simp

theorem exists_cons_of_splitCh (c : Char) (l : List Char) :
    ∃ h t, splitCh c l = h :: t := by
  cases hs : splitCh c l with
  | nil => exact absurd hs (splitCh_ne_nil c l)
  | cons h t => exact ⟨h, t, rfl⟩

theorem not_mem_of_mem_splitCh (c : Char) (l : List Char) :
    ∀ p ∈ splitCh c l, c ∉ p := by
  induction l with
  | nil =>
    intro p hp
    simp [splitCh] at hp
    simp [hp]
  | cons x xs ih =>
    intro p hp
    simp only [splitCh] at hp
    split at hp
    · rcases List.mem_cons.mp hp with h | h
      · simp [h]
      · exact ih p h
    · rename_i hxc
      obtain ⟨h, t, hs⟩ := exists_cons_of_splitCh c xs
      rw [hs] at hp
      simp only at hp
      rcases List.mem_cons.mp hp with hh | hh
      · subst hh
        intro hmem
        rcases List.mem_cons.mp hmem with h1 | h1
        · exact hxc h1.symm
        · exact ih h (hs ▸ List.mem_cons_self h t) h1
      · exact ih p (hs ▸ List.mem_cons_of_mem h hh)

theorem mem_of_mem_mem_splitCh (c : Char) (l : List Char) :
    ∀ p ∈ splitCh c l, ∀ x ∈ p, x ∈ l := by
  induction l with
  | nil =>
    intro p hp
    simp [splitCh] at hp
    simp [hp]
  | cons y ys ih =>
    intro p hp x hx
    simp only [splitCh] at hp
    split at hp
    · rcases List.mem_cons.mp hp with h | h
      · subst h; simp at hx
      · exact List.mem_cons_of_mem y (ih p h x hx)
    · obtain ⟨h, t, hs⟩ := exists_cons_of_splitCh c ys
      rw [hs] at hp
      simp only at hp
      rcases List.mem_cons.mp hp with hh | hh
      · subst hh
        rcases List.mem_cons.mp hx with h1 | h1
        · exact h1 ▸ List.mem_cons_self y ys
        · exact List.mem_cons_of_mem y (ih h (hs ▸ List.mem_cons_self h t) x h1)
      · exact List.mem_cons_of_mem y (ih p (hs ▸ List.mem_cons_of_mem h hh) x hx)

theorem splitCh_of_not_mem (c : Char) (l : List Char) (h : c ∉ l) :
    splitCh c l = [l] := by
  induction l with
  | nil => simp [splitCh]
  | cons x xs ih =>
    simp only [List.mem_cons, not_or] at h
    simp only [splitCh]
    rw [if_neg (fun hxc => h.1 hxc.symm), ih h.2]

theorem splitCh_append (c : Char) (l₁ l₂ : List Char) (h : c ∉ l₁) :
    splitCh c (l₁ ++ c :: l₂) = l₁ :: splitCh c l₂ := by
  induction l₁ with
  | nil => simp [splitCh]
  | cons x xs ih =>
    simp only [List.mem_cons, not_or] at h
    simp only [List.cons_append, splitCh]
    rw [if_neg (fun hxc => h.1 hxc.symm)]
    simp only [List.append_eq]
    rw [ih h.2]

theorem splitCh_pyjoin (c : Char) (ls : List (List Char))
    (hne : ls ≠ []) (h : ∀ p ∈ ls, c ∉ p) :
    splitCh c (pyjoinData c ls ++ [c]) = ls ++ [[]] := by
  induction ls with
  | nil => exact absurd rfl hne
  | cons a rest ih =>
    cases rest with
    | nil =>
      simp only [pyjoinData]
      rw [splitCh_append c a [] (h a (List.mem_cons_self a []))]
      simp [splitCh]
    | cons b rest2 =>
      simp only [pyjoinData, List.append_assoc, List.cons_append]
      rw [splitCh_append c a _ (h a (List.mem_cons_self a _))]
      have := ih (by simp) (fun p hp => h p (List.mem_cons_of_mem a hp))
      simp only [pyjoinData] at this ⊢
      rw [this]
      simp

/-! ### Facts about strip -/

theorem head_dropWhile_false {α : Type} (p : α → Bool) (l : List α) (x : α)
    (xs : List α) (h : l.dropWhile p = x :: xs) : p x = false := by
  induction l with
  | nil => simp [List.dropWhile] at h
  | cons y ys ih =>
    simp only [List.dropWhile] at h
    cases hy : p y with
    | false =>
      rw [hy] at h
      simp only at h
      injection h with h1 h2
      rw [← h1]
      exact hy
    | true =>
      rw [hy] at h
      simp only at h
      exact ih h

theorem dropWhile_cons_of_neg {α : Type} (p : α → Bool) (x : α) (xs : List α)
    (h : p x = false) : (x :: xs).dropWhile p = x :: xs := by
  simp [List.dropWhile, h]

theorem dropWhile_idem {α : Type} (p : α → Bool) (l : List α) :
    (l.dropWhile p).dropWhile p = l.dropWhile p := by
  cases hs : l.dropWhile p with
  | nil => rfl
  | cons x xs => exact dropWhile_cons_of_neg p x xs (head_dropWhile_false p l x xs hs)

theorem exists_append_dropWhile {α : Type} (p : α → Bool) (l : List α) :
    ∃ t, l = t ++ l.dropWhile p := by
  induction l with
  | nil => exact ⟨[], rfl⟩
  | cons y ys ih =>
    by_cases hy : p y
    · obtain ⟨t, ht⟩ := ih
      refine ⟨y :: t, ?_⟩
      simp only [List.dropWhile, hy, if_pos]
      exact congrArg (y :: ·) ht
    · exact ⟨[], by simp [List.dropWhile, hy]⟩

theorem getLast?_append_right {α : Type} (l₁ l₂ : List α) (h : l₂ ≠ []) :
    (l₁ ++ l₂).getLast? = l₂.getLast? := by
  rw [← List.head?_reverse, ← List.head?_reverse]
  rw [List.reverse_append]
  cases hr : l₂.reverse with
  | nil => exact absurd (List.reverse_eq_nil_iff.mp hr) h
  | cons y ys => simp

theorem mem_of_mem_pystripData (l : List Char) (x : Char) (h : x ∈ pystripData l) :
    x ∈ l := by
  simp only [pystripData, dropTrail, List.mem_reverse] at h
  have h1 : x ∈ (l.dropWhile wsChar).reverse := (List.dropWhile_sublist _).mem h
  rw [List.mem_reverse] at h1
  exact (List.dropWhile_sublist _).mem h1

theorem pystripData_cons_ws (ch : Char) (l : List Char) (h : wsChar ch = true) :
    pystripData (ch :: l) = pystripData l := by
  simp [pystripData, List.dropWhile, h]

theorem pystripData_idem (l : List Char) : pystripData (pystripData l) = pystripData l := by
  set A := l.dropWhile wsChar with hA
  set B := A.reverse.dropWhile wsChar with hB
  have hRB : pystripData l = B.reverse := rfl
  rw [hRB]
  by_cases hBnil : B = []
  · simp [hBnil, pystripData, dropTrail]
  · -- the head of B.reverse is the head of A, which is not whitespace
    have hAne : A ≠ [] := by
      intro hA0
      rw [hA0] at hB
      simp at hB
      exact hBnil hB
    obtain ⟨a, as, hAcons⟩ := List.exists_cons_of_ne_nil hAne
    have haws : wsChar a = false := head_dropWhile_false wsChar l a as (hA ▸ hAcons)
    have hlast : B.getLast? = some a := by
      obtain ⟨t, ht⟩ := exists_append_dropWhile wsChar A.reverse
      rw [← hB] at ht
      have : A.reverse.getLast? = B.getLast? := by
        rw [ht]; exact getLast?_append_right t B hBnil
      rw [← this, ← List.head?_reverse, List.reverse_reverse, hAcons]
      rfl
    have hhead : B.reverse.head? = some a := by rw [List.head?_reverse]; exact hlast
    have hdrop1 : B.reverse.dropWhile wsChar = B.reverse := by
      cases hc : B.reverse with
      | nil => rfl
      | cons y ys =>
        rw [hc] at hhead
        simp only [List.head?] at hhead
        cases hhead
        exact dropWhile_cons_of_neg wsChar a ys haws
    have hdrop2 : B.dropWhile wsChar = B := by rw [hB]; exact dropWhile_idem _ _
    simp only [pystripData, dropTrail, hdrop1, List.reverse_reverse, hdrop2]

theorem pystrip_idem (s : String) : pystrip (pystrip s) = pystrip s := by
  simp only [pystrip, mk_data]
  exact congrArg String.mk (pystripData_idem s.data)

/-! ### Python dict model

A Python `dict[str, str]` is modelled as an insertion-ordered association
list: `dinsert` is item assignment (update in place if the key is present,
append otherwise), `dmerge` is the `|` merge operator (right operand wins
per key), `dget` is `.get`.
-/

abbrev Dict := List (String × String)

def dget : Dict → String → Option String
  | [], _ => none
  | kv :: d, k => if kv.1 = k then some kv.2 else dget d k

def dinsert : Dict → String → String → Dict
  | [], k, v => [(k, v)]
  | kv :: d, k, v => if kv.1 = k then (k, v) :: d else kv :: dinsert d k v

def dmerge (d other : Dict) : Dict :=
  other.foldl (fun acc kv => dinsert acc kv.1 kv.2) d

def dkeys (d : Dict) : List String := d.map Prod.fst

theorem dget_dinsert (d : Dict) (k v : String) (x : String) :
    dget (dinsert d k v) x = if x = k then some v else dget d x := by
  induction d with
  | nil =>
    simp only [dinsert, dget]
    by_cases hx : x = k
    · rw [if_pos hx.symm, if_pos hx]
    · rw [if_neg (fun h : k = x => hx h.symm), if_neg hx]
  | cons kv d ih =>
    simp only [dinsert]
    by_cases hk : kv.1 = k
    · rw [if_pos hk]
      simp only [dget]
      by_cases hx : x = k
      · rw [if_pos hx.symm, if_pos hx]
      · rw [if_neg (fun h : k = x => hx h.symm), if_neg hx]
        rw [if_neg (fun h : kv.1 = x => hx (hk.symm.trans h).symm)]
    · rw [if_neg hk]
      simp only [dget]
      by_cases hkvx : kv.1 = x
      · rw [if_pos hkvx, if_neg (fun h : x = k => hk (hkvx.trans h)), if_pos hkvx]
      · rw [if_neg hkvx, ih]
        by_cases hx : x = k
        · rw [if_pos hx, if_pos hx]
        · rw [if_neg hx, if_neg hx, if_neg hkvx]

theorem mem_dkeys_dinsert (d : Dict) (k v x : String)
    (h : x ∈ dkeys (dinsert d k v)) : x ∈ dkeys d ∨ x = k := by
  induction d with
  | nil =>
    simp [dinsert, dkeys] at h
    exact Or.inr h
  | cons kv d ih =>
    simp only [dinsert] at h
    by_cases hk : kv.1 = k
    · rw [if_pos hk] at h
      simp only [dkeys, List.map_cons, List.mem_cons] at h ⊢
      rcases h with h | h
      · exact Or.inr h
      · exact Or.inl (Or.inr h)
    · rw [if_neg hk] at h
      simp only [dkeys, List.map_cons, List.mem_cons] at h ⊢
      rcases h with h | h
      · exact Or.inl (Or.inl h)
      · rcases ih h with h1 | h1
        · exact Or.inl (Or.inr h1)
        · exact Or.inr h1

theorem mem_of_mem_dinsert (d : Dict) (k v : String) (kv : String × String)
    (h : kv ∈ dinsert d k v) : kv ∈ d ∨ kv = (k, v) := by
  induction d with
  | nil =>
    simp [dinsert] at h
    exact Or.inr h
  | cons e d ih =>
    simp only [dinsert] at h
    by_cases hk : e.1 = k
    · rw [if_pos hk] at h
      rcases List.mem_cons.mp h with h1 | h1
      · exact Or.inr h1
      · exact Or.inl (List.mem_cons_of_mem e h1)
    · rw [if_neg hk] at h
      rcases List.mem_cons.mp h with h1 | h1
      · exact Or.inl (h1 ▸ List.mem_cons_self e d)
      · rcases ih h1 with h2 | h2
        · exact Or.inl (List.mem_cons_of_mem e h2)
        · exact Or.inr h2

theorem nodup_dkeys_dinsert (d : Dict) (k v : String)
    (h : (dkeys d).Nodup) : (dkeys (dinsert d k v)).Nodup := by
  induction d with
  | nil => simp [dinsert, dkeys]
  | cons kv d ih =>
    simp only [dkeys, List.map_cons, List.nodup_cons] at h
    simp only [dinsert]
    by_cases hk : kv.1 = k
    · rw [if_pos hk]
      simp only [dkeys, List.map_cons, List.nodup_cons]
      exact ⟨hk ▸ h.1, h.2⟩
    · rw [if_neg hk]
      simp only [dkeys, List.map_cons, List.nodup_cons]
      refine ⟨fun hmem => ?_, ih h.2⟩
      rcases mem_dkeys_dinsert d k v kv.1 hmem with h1 | h1
      · exact h.1 h1
      · exact hk h1

theorem dinsert_of_not_mem (d : Dict) (k v : String) (h : k ∉ dkeys d) :
    dinsert d k v = d ++ [(k, v)] := by
  induction d with
  | nil => rfl
  | cons kv d ih =>
    simp only [dkeys, List.map_cons, List.mem_cons, not_or] at h
    simp only [dinsert]
    rw [if_neg (fun he => h.1 he.symm), ih h.2]
    rfl

theorem dget_filter_ne (d : Dict) (u x : String) :
    dget (d.filter (fun kv => kv.1 != u)) x =
      if x = u then none else dget d x := by
  induction d with
  | nil => simp [dget]
  | cons kv d ih =>
    by_cases hkv : kv.1 = u
    · rw [List.filter_cons_of_neg (by simp [hkv]), ih]
      by_cases hx : x = u
      · rw [if_pos hx, if_pos hx]
      · rw [if_neg hx, if_neg hx]
        simp only [dget]
        rw [if_neg (fun h : kv.1 = x => hx (h ▸ hkv))]
    · rw [List.filter_cons_of_pos (by simp [hkv])]
      simp only [dget]
      by_cases hkvx : kv.1 = x
      · rw [if_pos hkvx, if_neg (fun h : x = u => hkv (hkvx.trans h)), if_pos hkvx]
      · rw [if_neg hkvx, ih]
        by_cases hx : x = u
        · rw [if_pos hx, if_pos hx]
        · rw [if_neg hx, if_neg hx, if_neg hkvx]

/-! ### AuthManager (src/src/managers/auth.py)

The credential store state is the content of the password file on disk,
modelled as `Option String` (`none` when the file does not exist).
`Workload.read` is the VM workload read (src/src/workload.py): a missing
file reads as `[]`, otherwise the whole content is split on newlines.
-/

def Workload.read (file : Option String) : List String :=
  match file with
  | none => []
  | some content => pysplit '\n' content

namespace AuthManager

/-- delimiter of the credential file; the source sets DELIMITER = ":". -/
def DELIMITER : Char := ':'

/-- One iteration of the parsing loop in AuthManager._load_credentials:
split the line on the delimiter and keep it only when it has exactly two
parts, stripping whitespace from both. -/
def parseLine (credentials : Dict) (line : String) : Dict :=
  match pysplit DELIMITER line with
  | [u, p] => dinsert credentials (pystrip u) (pystrip p)
  | _ => credentials

/-- AuthManager._load_credentials over the raw line list. -/
def load_credentials (raw : List String) : Dict :=
  raw.foldl parseLine []

/-- AuthManager._save_credentials: one "user: password" line per entry,
joined by newlines, with a trailing newline appended before writing. -/
def save_credentials (cache : Dict) : String :=
  pyjoin '\n' (cache.map (fun kv => kv.1 ++ ": " ++ kv.2)) ++ "\n"

/-- The credentials visible in a store file: _load_credentials of workload.read. -/
def loadStore (file : Option String) : Dict :=
  load_credentials (Workload.read file)

/-- AuthManager.update: merge the given credentials into the loaded map
(Python dict merge, right operand wins) and rewrite the whole file. -/
def update (file : Option String) (credentials : Dict) : Option String :=
  some (save_credentials (dmerge (loadStore file) credentials))

/-- AuthManager.remove_user: drop one username from the loaded map and
rewrite the whole file. -/
def remove_user (file : Option String) (username : String) : Option String :=
  some (save_credentials ((loadStore file).filter (fun kv => kv.1 != username)))

end AuthManager

/-- A string that survives the credential-file round trip unchanged: it is
its own strip, and contains neither the delimiter nor a newline. -/
def cleanStr (s : String) : Prop :=
  pystrip s = s ∧ ':' ∉ s.data ∧ '\n' ∉ s.data

/-- Both components of a credential entry are clean. -/
def cleanPair (kv : String × String) : Prop := cleanStr kv.1 ∧ cleanStr kv.2

instance (s : String) : Decidable (cleanStr s) := by
  unfold cleanStr; infer_instance

instance (kv : String × String) : Decidable (cleanPair kv) := by
  unfold cleanPair; infer_instance

theorem parseLine_entry (acc : Dict) (u p : String) (hu : cleanStr u) (hp : cleanStr p) :
    AuthManager.parseLine acc (u ++ ": " ++ p) = dinsert acc u p := by
  have hdata : (u ++ ": " ++ p).data = u.data ++ ':' :: ' ' :: p.data := by
    rw [data_append, data_append, List.append_assoc]
    rfl
  have hsp : splitCh ':' (u ++ ": " ++ p).data = [u.data, ' ' :: p.data] := by
    rw [hdata]
    rw [splitCh_append ':' u.data (' ' :: p.data) hu.2.1]
    rw [splitCh_of_not_mem ':' (' ' :: p.data) ?_]
    intro hmem
    rcases List.mem_cons.mp hmem with h | h
    · exact absurd h (by decide)
    · exact hp.2.1 h
  simp only [AuthManager.parseLine, pysplit, AuthManager.DELIMITER, hsp,
    List.map_cons, List.map_nil]
  rw [show pystrip (String.mk u.data) = u from (mk_data u) ▸ hu.1]
  have hstripP : pystrip (String.mk (' ' :: p.data)) = p := by
    have h1 : pystripData (' ' :: p.data) = pystripData p.data :=
      pystripData_cons_ws ' ' p.data (by decide)
    have h2 : String.mk (pystripData p.data) = p := hp.1
    simp only [pystrip, h1]
    exact h2
  rw [hstripP]

theorem parseLine_clean (acc : Dict) (line : String) (hline : '\n' ∉ line.data)
    (hacc : ∀ kv ∈ acc, cleanPair kv) :
    ∀ kv ∈ AuthManager.parseLine acc line, cleanPair kv := by
  intro kv hkv
  rcases hL : splitCh AuthManager.DELIMITER line.data with _ | ⟨a, _ | ⟨b, _ | ⟨c, rest⟩⟩⟩ <;>
    simp only [AuthManager.parseLine, pysplit, hL, List.map_cons, List.map_nil] at hkv <;>
    try exact hacc kv hkv
  -- two-part case: the new entry is stripped and delimiter- and newline-free
  rcases mem_of_mem_dinsert acc _ _ kv hkv with h | h
  · exact hacc kv h
  · subst h
    have hmemA : a ∈ splitCh AuthManager.DELIMITER line.data := by rw [hL]; simp
    have hmemB : b ∈ splitCh AuthManager.DELIMITER line.data := by rw [hL]; simp
    have clean_of : ∀ x ∈ splitCh AuthManager.DELIMITER line.data,
        cleanStr (pystrip (String.mk x)) := by
      intro x hx
      refine ⟨pystrip_idem (String.mk x), fun hc => ?_, fun hn => ?_⟩
      · exact not_mem_of_mem_splitCh AuthManager.DELIMITER line.data x hx
          (mem_of_mem_pystripData x ':' hc)
      · exact hline (mem_of_mem_mem_splitCh AuthManager.DELIMITER line.data x hx '\n'
          (mem_of_mem_pystripData x '\n' hn))
    exact ⟨clean_of a hmemA, clean_of b hmemB⟩

theorem parseLine_nodup (acc : Dict) (line : String)
    (h : (dkeys acc).Nodup) : (dkeys (AuthManager.parseLine acc line)).Nodup := by
  rcases hL : splitCh AuthManager.DELIMITER line.data with _ | ⟨a, _ | ⟨b, _ | ⟨c, rest⟩⟩⟩ <;>
    simp only [AuthManager.parseLine, pysplit, hL, List.map_cons, List.map_nil] <;>
    try exact h
  exact nodup_dkeys_dinsert acc _ _ h

theorem foldl_parseLine_clean (raw : List String) (acc : Dict)
    (hraw : ∀ line ∈ raw, '\n' ∉ line.data) (hacc : ∀ kv ∈ acc, cleanPair kv) :
    ∀ kv ∈ List.foldl AuthManager.parseLine acc raw, cleanPair kv := by
  induction raw generalizing acc with
  | nil => exact hacc
  | cons line rest ih =>
    simp only [List.foldl_cons]
    exact ih (AuthManager.parseLine acc line)
      (fun l hl => hraw l (List.mem_cons_of_mem line hl))
      (parseLine_clean acc line (hraw line (List.mem_cons_self line rest)) hacc)

theorem foldl_parseLine_nodup (raw : List String) (acc : Dict)
    (hacc : (dkeys acc).Nodup) :
    (dkeys (List.foldl AuthManager.parseLine acc raw)).Nodup := by
  induction raw generalizing acc with
  | nil => exact hacc
  | cons line rest ih =>
    simp only [List.foldl_cons]
    exact ih (AuthManager.parseLine acc line) (parseLine_nodup acc line hacc)

theorem read_no_newline (file : Option String) :
    ∀ line ∈ Workload.read file, '\n' ∉ line.data := by
  intro line hline
  cases file with
  | none => simp [Workload.read] at hline
  | some content =>
    simp only [Workload.read, pysplit, List.mem_map] at hline
    obtain ⟨l, hl, hmk⟩ := hline
    rw [← hmk]
    exact not_mem_of_mem_splitCh '\n' content.data l hl

theorem loadStore_clean (file : Option String) :
    ∀ kv ∈ AuthManager.loadStore file, cleanPair kv :=
  foldl_parseLine_clean (Workload.read file) [] (read_no_newline file) (by simp)

theorem loadStore_nodup (file : Option String) :
    (dkeys (AuthManager.loadStore file)).Nodup :=
  foldl_parseLine_nodup (Workload.read file) [] (by simp [dkeys])

theorem map_mk_map_data (ls : List String) :
    (ls.map String.data).map String.mk = ls := by
  induction ls with
  | nil => rfl
  | cons s rest ih => simp only [List.map_cons, mk_data, ih]

theorem foldl_parseLine_save (m : Dict) (acc : Dict)
    (hnd : (dkeys m).Nodup) (hc : ∀ kv ∈ m, cleanPair kv)
    (hdisj : ∀ k ∈ dkeys m, k ∉ dkeys acc) :
    List.foldl AuthManager.parseLine acc (m.map (fun kv => kv.1 ++ ": " ++ kv.2)) =
      acc ++ m := by
  induction m generalizing acc with
  | nil => simp
  | cons kv m2 ih =>
    simp only [List.map_cons, List.foldl_cons]
    have hkv := hc kv (List.mem_cons_self kv m2)
    rw [parseLine_entry acc kv.1 kv.2 hkv.1 hkv.2]
    rw [dinsert_of_not_mem acc kv.1 kv.2
      (hdisj kv.1 (by simp [dkeys]))]
    have hnd2 : (dkeys m2).Nodup := by
      simpa [dkeys] using hnd.of_cons
    have hdisj2 : ∀ k ∈ dkeys m2, k ∉ dkeys (acc ++ [(kv.1, kv.2)]) := by
      intro k hk hmem
      simp only [dkeys, List.map_append, List.mem_append, List.map_cons, List.map_nil,
        List.mem_cons] at hmem
      rcases hmem with h | h
      · exact hdisj k (by simp only [dkeys, List.map_cons]; exact List.mem_cons_of_mem _ hk) h
      · rcases h with h | h
        · have : kv.1 ∉ dkeys m2 := by
            simp only [dkeys, List.map_cons, List.nodup_cons] at hnd
            exact hnd.1
          exact this (h ▸ hk)
        · simp at h
    rw [ih (acc ++ [(kv.1, kv.2)]) hnd2
      (fun e he => hc e (List.mem_cons_of_mem kv he)) hdisj2]
    simp

theorem parseLine_empty (acc : Dict) : AuthManager.parseLine acc "" = acc := rfl

/-- The round trip through the credential file: saving a map whose keys are
distinct and whose entries are clean, then reading it back through the
workload, reproduces the map exactly. -/
theorem loadStore_save (m : Dict) (hnd : (dkeys m).Nodup)
    (hc : ∀ kv ∈ m, cleanPair kv) :
    AuthManager.loadStore (some (AuthManager.save_credentials m)) = m := by
  cases m with
  | nil => rfl
  | cons kv m2 =>
    set lines := (kv :: m2).map (fun kv => kv.1 ++ ": " ++ kv.2) with hlines
    have hdata : (AuthManager.save_credentials (kv :: m2)).data =
        pyjoinData '\n' (lines.map String.data) ++ ['\n'] := by
      simp only [AuthManager.save_credentials, data_append, pyjoin, hlines]
    have hnonl : ∀ p ∈ lines.map String.data, '\n' ∉ p := by
      intro p hp
      simp only [hlines, List.map_map, List.mem_map] at hp
      obtain ⟨e, he, hpe⟩ := hp
      have hce := hc e he
      rw [← hpe]
      intro hmem
      simp only [Function.comp_apply, data_append] at hmem
      rcases List.mem_append.mp hmem with h | h
      · rcases List.mem_append.mp h with h1 | h1
        · exact hce.1.2.2 h1
        · simp at h1
      · exact hce.2.2.2 h
    have hsplit : splitCh '\n' (AuthManager.save_credentials (kv :: m2)).data =
        lines.map String.data ++ [[]] := by
      rw [hdata]
      exact splitCh_pyjoin '\n' (lines.map String.data) (by simp [hlines]) hnonl
    simp only [AuthManager.loadStore, Workload.read, pysplit, hsplit, List.map_append,
      map_mk_map_data]
    simp only [AuthManager.load_credentials, List.foldl_append]
    rw [foldl_parseLine_save (kv :: m2) [] hnd hc (by simp [dkeys])]
    simp only [List.map_cons, List.map_nil, List.foldl_cons, List.foldl_nil, List.nil_append]
    exact parseLine_empty _

theorem dget_mem (d : Dict) (k v : String) (h : dget d k = some v) : (k, v) ∈ d := by
  induction d with
  | nil => simp [dget] at h
  | cons kv d ih =>
    obtain ⟨a, b⟩ := kv
    simp only [dget] at h
    by_cases hk : a = k
    · rw [if_pos hk] at h
      injection h with h1
      rw [← hk, ← h1]
      exact List.mem_cons_self _ _
    · rw [if_neg hk] at h
      exact List.mem_cons_of_mem _ (ih h)

theorem loadStore_remove_user (file : Option String) (u : String) :
    AuthManager.loadStore (AuthManager.remove_user file u) =
      (AuthManager.loadStore file).filter (fun kv => kv.1 != u) := by
  unfold AuthManager.remove_user
  apply loadStore_save
  · exact ((List.filter_sublist _).map Prod.fst).nodup (loadStore_nodup file)
  · intro kv hkv
    exact loadStore_clean file kv (List.mem_of_mem_filter hkv)

theorem loadStore_update_single (file : Option String) (u p : String)
    (hu : cleanStr u) (hp : cleanStr p) :
    AuthManager.loadStore (AuthManager.update file [(u, p)]) =
      dinsert (AuthManager.loadStore file) u p := by
  unfold AuthManager.update
  have hmerge : dmerge (AuthManager.loadStore file) [(u, p)] =
      dinsert (AuthManager.loadStore file) u p := rfl
  rw [hmerge]
  apply loadStore_save
  · exact nodup_dkeys_dinsert _ u p (loadStore_nodup file)
  · intro kv hkv
    rcases mem_of_mem_dinsert _ u p kv hkv with h | h
    · exact loadStore_clean file kv h
    · rw [h]; exact ⟨hu, hp⟩

/-! ### Relation-broken cleanup (src/src/events/connect.py) -/

/-- Username assigned to a connect-client relation, derived as
relation-{id} (core/models.py, ConnectClientContext.username, and the
broken handler). -/
def relationUser (rid : Nat) : String := "relation-" ++ toString rid

/-- The credential-store effect of ConnectHandler._on_relation_broken: the
username relation-{id} of the broken relation is removed from the store. -/
def on_relation_broken_store (file : Option String) (rid : Nat) : Option String :=
  AuthManager.remove_user file (relationUser rid)

/-- The admin username constant (core/models.py, PeerWorkersContext). -/
def ADMIN_USERNAME : String := "admin"

theorem length_append (a b : String) : (a ++ b).length = a.length + b.length := by
  show (a.data ++ b.data).length = a.data.length + b.data.length
  exact List.length_append _ _

theorem relationUser_ne_admin (rid : Nat) : relationUser rid ≠ ADMIN_USERNAME := by
  intro h
  have h2 := congrArg String.length h
  rw [relationUser, length_append] at h2
  have h3 : ("relation-" : String).length = 9 := rfl
  have h4 : ADMIN_USERNAME.length = 5 := rfl
  rw [h3, h4] at h2
  omega

/-- C6: the connect-client relation-broken cleanup removes only the username
relation-{id} of the broken relation from the credential store: the admin
entry keeps the same password, and any username whose visible entry differs
after the cleanup is exactly the relation user. -/
theorem C6_admin_never_removed :
    (∀ (file : Option String) (rid : Nat),
        dget (AuthManager.loadStore (on_relation_broken_store file rid)) ADMIN_USERNAME =
          dget (AuthManager.loadStore file) ADMIN_USERNAME)
    ∧ (∀ (file : Option String) (rid : Nat) (v : String),
        dget (AuthManager.loadStore (on_relation_broken_store file rid)) v ≠
          dget (AuthManager.loadStore file) v → v = relationUser rid) := by
  constructor
  · intro file rid
    rw [on_relation_broken_store, loadStore_remove_user, dget_filter_ne]
    rw [if_neg (fun h : ADMIN_USERNAME = relationUser rid => relationUser_ne_admin rid h.symm)]
  · intro file rid v h
    rw [on_relation_broken_store, loadStore_remove_user, dget_filter_ne] at h
    by_cases hv : v = relationUser rid
    · exact hv
    · rw [if_neg hv] at h
      exact absurd rfl h

/-- Witness for C6 at a concrete store holding the admin entry and a
relation user. -/
theorem C6_admin_never_removed_witness :
    (dget (AuthManager.loadStore
        (on_relation_broken_store (some "admin: pw\nrelation-3: q\n") 3)) "relation-3" ≠
      dget (AuthManager.loadStore (some "admin: pw\nrelation-3: q\n")) "relation-3")
    ∧ "relation-3" = relationUser 3 :=
  ⟨by decide,
    C6_admin_never_removed.2 (some "admin: pw\nrelation-3: q\n") 3 "relation-3" (by decide)⟩

/-- C7 counterexample: upserting an entry whose password embeds a newline and
a delimiter makes the subsequent load see a spurious entry for a different
username v, so removing u does not leave the other entries unaffected. -/
theorem C7_counterexample :
    dget (AuthManager.loadStore
        (AuthManager.remove_user (AuthManager.update none [("u", "x\nv: w")]) "u")) "v" =
      some "w"
    ∧ dget (AuthManager.loadStore none) "v" = none := by decide

/-- C7 (amended): for username and password that are strip-fixed and contain
neither the delimiter nor a newline, remove(upsert(store,{u:p}),u) yields a
store without u whose other entries are unchanged. -/
theorem C7_remove_upsert_clean (file : Option String) (u p v : String)
    (hu : cleanStr u) (hp : cleanStr p) :
    dget (AuthManager.loadStore
        (AuthManager.remove_user (AuthManager.update file [(u, p)]) u)) v =
      if v = u then none else dget (AuthManager.loadStore file) v := by
  rw [loadStore_remove_user, dget_filter_ne, loadStore_update_single file u p hu hp,
    dget_dinsert]
  by_cases hv : v = u
  · rw [if_pos hv, if_pos hv]
  · rw [if_neg hv, if_neg hv, if_neg hv]

/-- Witness for C7 (amended) at a concrete store and clean credentials. -/
theorem C7_remove_upsert_clean_witness :
    cleanStr "u" ∧ cleanStr "pw" ∧
    dget (AuthManager.loadStore (AuthManager.remove_user
        (AuthManager.update (some "a: b\n") [("u", "pw")]) "u")) "a" =
      (if ("a" : String) = "u" then none
        else dget (AuthManager.loadStore (some "a: b\n")) "a") :=
  ⟨by decide, by decide,
    C7_remove_upsert_clean (some "a: b\n") "u" "pw" "a" (by decide) (by decide)⟩

/-- C10 counterexample: the entry ("a\nb", "c") is strip-fixed and
delimiter-free, yet the save/load round trip does not reproduce the map,
because the embedded newline splits the entry into a different line. -/
theorem C10_counterexample :
    pystrip "a\nb" = "a\nb" ∧ (':' ∉ ("a\nb" : String).data) ∧
    pystrip "c" = "c" ∧ (':' ∉ ("c" : String).data) ∧
    AuthManager.loadStore (some (AuthManager.save_credentials [("a\nb", "c")])) ≠
      [("a\nb", "c")] := by decide

/-- C10 (amended): the credential-file round trip. An entry whose username
or password contains the delimiter is never visible as such after a load
(every loaded key and value is delimiter-free), and for maps with distinct
keys whose usernames and passwords are strip-fixed and contain neither the
delimiter nor a newline, load(save(m)) = m. -/
theorem C10_load_save_round_trip :
    (∀ (m : Dict) (u p : String), (':' ∈ u.data ∨ ':' ∈ p.data) →
        dget (AuthManager.loadStore (some (AuthManager.save_credentials m))) u ≠ some p)
    ∧ (∀ m : Dict, (dkeys m).Nodup → (∀ kv ∈ m, cleanPair kv) →
        AuthManager.loadStore (some (AuthManager.save_credentials m)) = m) := by
  constructor
  · intro m u p hcolon heq
    have hmem := dget_mem _ u p heq
    have hclean := loadStore_clean (some (AuthManager.save_credentials m)) (u, p) hmem
    rcases hcolon with h | h
    · exact hclean.1.2.1 h
    · exact hclean.2.2.1 h
  · exact loadStore_save

/-- Witness for C10 (amended) at concrete inputs for both conjuncts. -/
theorem C10_load_save_round_trip_witness :
    ((':' ∈ ("a:b" : String).data ∨ ':' ∈ ("c" : String).data) ∧
      dget (AuthManager.loadStore
          (some (AuthManager.save_credentials [("a:b", "c")]))) "a:b" ≠ some "c")
    ∧ ((dkeys [(("a" : String), ("b" : String))]).Nodup ∧
        (∀ kv ∈ [(("a" : String), ("b" : String))], cleanPair kv) ∧
        AuthManager.loadStore
          (some (AuthManager.save_credentials [(("a" : String), ("b" : String))])) =
            [(("a" : String), ("b" : String))]) :=
  ⟨⟨by decide, C10_load_save_round_trip.1 [("a:b", "c")] "a:b" "c" (by decide)⟩,
    ⟨by decide, by decide,
      C10_load_save_round_trip.2 [("a", "b")] (by decide) (by decide)⟩⟩

/-! ### Literals (src/src/literals.py) and paths (src/src/core/workload.py) -/

def SNAP_NAME : String := "charmed-kafka"

def PLUGIN_PATH : String := "/var/snap/" ++ SNAP_NAME ++ "/common/var/lib/connect/plugins/"

def CONFIG_DIR : String := "/var/snap/" ++ SNAP_NAME ++ "/current/etc/connect"

def DEFAULT_AUTH_CLASS : String :=
  "org.apache.kafka.connect.rest.basic.auth.extension.BasicAuthSecurityRestExtension"

def DEFAULT_SECURITY_MECHANISM : String := "SCRAM-SHA-512"

def GROUP_ID : String := "connect-cluster"

def REPLICATION_FACTOR : Int := -1

/-- TOPICS dict in its insertion order. -/
def TOPICS : List (String × String) :=
  [("offset", "connect-offset"), ("config", "connect-config"), ("status", "connect-status")]

namespace Paths

def plugins : String := PLUGIN_PATH

def worker_properties : String := CONFIG_DIR ++ "/connect-distributed.properties"

def keystore : String := CONFIG_DIR ++ "/keystore.p12"

def truststore : String := CONFIG_DIR ++ "/truststore.jks"

def passwords : String := CONFIG_DIR ++ "/connect.password"

end Paths

/-! ### State snapshot (src/src/core/models.py)

The relation databags a reconciliation pass reads. The kafka-client
relation is absent when `kafkaClient = none`; the peer relation carries an
application databag and this unit's own databag (SUBSTRATE is "vm"). -/

structure Snapshot where
  kafkaClient : Option Dict
  peerRelation : Bool
  peerAppData : Dict
  workerUnitData : Dict

/-- RelationContext.relation_data: `{}` when the relation is absent. -/
def relData (present : Bool) (d : Dict) : Dict := if present then d else []

/-- RelationContext.tls_enabled: relation present, tls field set and not
"disabled". -/
def tlsEnabledData (present : Bool) (d : Dict) : Bool :=
  if present then
    match dget d "tls" with
    | none => false
    | some t => t != "disabled"
  else false

inductive Status
  | missingKafka
  | noKafkaCredentials
  | serviceNotRunning
  | active
deriving DecidableEq

namespace KafkaClientContext

def username (s : Snapshot) : String :=
  match s.kafkaClient with
  | none => ""
  | some d => (dget d "username").getD ""

def password (s : Snapshot) : String :=
  match s.kafkaClient with
  | none => ""
  | some d => (dget d "password").getD ""

def bootstrap_servers (s : Snapshot) : String :=
  match s.kafkaClient with
  | none => ""
  | some d => (dget d "endpoints").getD ""

def tls_enabled (s : Snapshot) : Bool :=
  match s.kafkaClient with
  | none => false
  | some d => tlsEnabledData true d

def security_protocol (s : Snapshot) : String :=
  if tls_enabled s then "SASL_SSL" else "SASL_PLAINTEXT"

def security_mechanism : String := DEFAULT_SECURITY_MECHANISM

def status (s : Snapshot) : Status :=
  match s.kafkaClient with
  | none => Status.missingKafka
  | some _ =>
    if username s = "" ∨ password s = "" ∨ bootstrap_servers s = "" then
      Status.noKafkaCredentials
    else Status.active

end KafkaClientContext

namespace PeerWorkersContext

def tls_enabled (s : Snapshot) : Bool := tlsEnabledData s.peerRelation s.peerAppData

end PeerWorkersContext

namespace WorkerUnitContext

def relation_data (s : Snapshot) : Dict := relData s.peerRelation s.workerUnitData

/-- internal_address on the vm substrate: first non-empty among hostname,
ip, private-address in the unit databag. -/
def internal_address (s : Snapshot) : String :=
  let h := (dget (relation_data s) "hostname").getD ""
  if h ≠ "" then h
  else
    let i := (dget (relation_data s) "ip").getD ""
    if i ≠ "" then i
    else (dget (relation_data s) "private-address").getD ""

def should_restart (s : Snapshot) : Bool :=
  if s.peerRelation then decide (dget s.workerUnitData "restart" = some "true")
  else false

end WorkerUnitContext

namespace TLSContext

def truststore_password (s : Snapshot) : String :=
  (dget (WorkerUnitContext.relation_data s) "truststore-password").getD ""

def keystore_password (s : Snapshot) : String :=
  (dget (WorkerUnitContext.relation_data s) "keystore-password").getD ""

end TLSContext

namespace Context

def rest_protocol (s : Snapshot) : String :=
  if PeerWorkersContext.tls_enabled s then "https" else "http"

/-- Context.status: the kafka-client status when it is not ready, Active
otherwise; this coincides with the kafka-client status itself. -/
def status (s : Snapshot) : Status := KafkaClientContext.status s

/-- WithStatus.ready: the status is Active. -/
def ready (s : Snapshot) : Bool := decide (status s = Status.active)

end Context

/-! ### Charm config (src/src/core/structured_config.py) and
ConfigManager (src/src/managers/config.py) -/

/-- A charm-config value as it appears to translate_config: the Python
runtime type of the field determines how it is formatted into the
properties file. -/
inductive CVal
  | s (v : String)
  | b (v : Bool)
  | i (v : Int)

/-- Python str() of a config value inside an f-string. -/
def pyfmt : CVal → String
  | CVal.s v => v
  | CVal.b v => if v then "True" else "False"
  | CVal.i v => toString v

structure CharmConfig where
  system_users : Option String
  exactly_once_source_support : Bool
  key_converter : String
  log_level : String
  profile : String
  rest_port : Int
  value_converter : String

def DEFAULT_CONFIG_OPTIONS : String :=
  "\noffset.flush.interval.ms=10000\nheartbeat.interval.ms=3000\nrebalance.timeout.ms=60000\nsession.timeout.ms=10000\nssl.enabled.protocols=TLSv1.3\nssl.protocol=TLSv1.3\nworker.sync.timeout.ms=3000\nworker.unsync.backoff.ms=300000\nkey.converter.schemas.enable=false\nvalue.converter.schemas.enable=false\n"

def PROPERTIES_BLACKLIST : List String :=
  ["system_users", "log_level", "profile", "rest_port"]

/-- VALUE_TRANSLATOR lookup: only exactly_once_source_support has a
translation table, keyed on the boolean value. -/
def VALUE_TRANSLATOR (key : String) (v : CVal) : Option String :=
  if key = "exactly_once_source_support" then
    match v with
    | CVal.b false => some "disabled"
    | CVal.b true => some "enabled"
    | _ => none
  else none

/-- Python str.replace for single characters. -/
def pyreplace (s : String) (a b : Char) : String :=
  String.mk (s.data.map (fun c => if c = a then b else c))

namespace ConfigManager

def translate_config (key : String) (value : CVal) : String :=
  let translated_value := (VALUE_TRANSLATOR key value).getD (pyfmt value)
  let translated_key :=
    if key ∈ PROPERTIES_BLACKLIST then "# " ++ key else pyreplace key '_' '.'
  translated_key ++ "=" ++ translated_value

/-- self.config.dict().items() in pydantic field order, with None values
skipped (only system_users can be None). -/
def configDict (cfg : CharmConfig) : List (String × CVal) :=
  (match cfg.system_users with
   | none => []
   | some su => [("system_users", CVal.s su)]) ++
  [("exactly_once_source_support", CVal.b cfg.exactly_once_source_support),
   ("key_converter", CVal.s cfg.key_converter),
   ("log_level", CVal.s cfg.log_level),
   ("profile", CVal.s cfg.profile),
   ("rest_port", CVal.i cfg.rest_port),
   ("value_converter", CVal.s cfg.value_converter)]

def charm_config_properties (cfg : CharmConfig) : List String :=
  (configDict cfg).map (fun kv => translate_config kv.1 kv.2)

def add_topic (mode topic_name : String) (replication_factor : Int) : List String :=
  [mode ++ ".storage.topic=" ++ topic_name,
   mode ++ ".storage.replication.factor=" ++ toString replication_factor]

def topic_properties : List String :=
  TOPICS.foldl (fun acc mt => acc ++ add_topic mt.1 mt.2 REPLICATION_FACTOR) []

def add_client (s : Snapshot) (mode username password : String) : List String :=
  let pfx := if mode = "worker" then "" else mode ++ "."
  [pfx ++ "sasl.mechanism=" ++ KafkaClientContext.security_mechanism,
   pfx ++ "security.protocol=" ++ KafkaClientContext.security_protocol s,
   pfx ++ "sasl.jaas.config=org.apache.kafka.common.security.scram.ScramLoginModule required username=\"" ++ username ++ "\" password=\"" ++ password ++ "\";"]

def client_auth_properties (s : Snapshot) : List String :=
  let username := KafkaClientContext.username s
  let password := KafkaClientContext.password s
  ["worker", "consumer", "producer"].foldl
    (fun acc mode => acc ++ add_client s mode username password) []

def rest_auth_properties : List String :=
  ["rest.extension.classes=" ++ DEFAULT_AUTH_CLASS]

def client_tls_properties (s : Snapshot) : List String :=
  if KafkaClientContext.tls_enabled s = false then []
  else
    ["ssl.truststore.location=" ++ Paths.truststore,
     "ssl.truststore.password=" ++ TLSContext.truststore_password s]

def rest_listener_properties (s : Snapshot) (cfg : CharmConfig) : List String :=
  ["listeners=" ++ Context.rest_protocol s ++ "://" ++
      WorkerUnitContext.internal_address s ++ ":" ++ toString cfg.rest_port,
   "rest.advertised.listener=" ++ Context.rest_protocol s,
   "rest.advertised.host.name=" ++ WorkerUnitContext.internal_address s,
   "rest.advertised.host.port=" ++ toString cfg.rest_port]

def rest_tls_properties (s : Snapshot) : List String :=
  if PeerWorkersContext.tls_enabled s = false then []
  else
    ["listeners.https.ssl.client.authentication=requested",
     "listeners.https.ssl.truststore.location=" ++ Paths.truststore,
     "listeners.https.ssl.truststore.password=" ++ TLSContext.truststore_password s,
     "listeners.https.ssl.keystore.location=" ++ Paths.keystore,
     "listeners.https.ssl.keystore.password=" ++ TLSContext.keystore_password s,
     "listeners.https.ssl.endpoint.identification.algorithm=HTTPS"]

/-- ConfigManager.properties: the full ordered rendered property list. -/
def properties (s : Snapshot) (cfg : CharmConfig) : List String :=
  ["bootstrap.servers=" ++ KafkaClientContext.bootstrap_servers s,
   "group.id=" ++ GROUP_ID,
   "plugin.path=" ++ Paths.plugins]
  ++ pysplit '\n' DEFAULT_CONFIG_OPTIONS
  ++ rest_listener_properties s cfg
  ++ rest_tls_properties s
  ++ rest_auth_properties
  ++ client_auth_properties s
  ++ client_tls_properties s
  ++ topic_properties
  ++ charm_config_properties cfg

end ConfigManager

/-- C2: rendering is a pure, deterministic, total function of the snapshot
and static charm config: two evaluations of the property list give the same
ordered list, and with absent Kafka credentials the rendering still succeeds
with a blank bootstrap.servers value instead of failing. -/
theorem C2_render_deterministic_total :
    (∀ (s : Snapshot) (cfg : CharmConfig),
        ConfigManager.properties s cfg = ConfigManager.properties s cfg)
    ∧ (∀ (s : Snapshot) (cfg : CharmConfig),
        KafkaClientContext.bootstrap_servers s = "" →
          (ConfigManager.properties s cfg).head? = some "bootstrap.servers=") := by
  refine ⟨fun s cfg => rfl, fun s cfg h => ?_⟩
  have h0 : (ConfigManager.properties s cfg).head? =
      some ("bootstrap.servers=" ++ KafkaClientContext.bootstrap_servers s) := rfl
  rw [h0, h]
  decide

/-- Witness for C2 at a snapshot with no kafka-client relation. -/
theorem C2_render_deterministic_total_witness :
    KafkaClientContext.bootstrap_servers (Snapshot.mk none false [] []) = "" ∧
    (ConfigManager.properties (Snapshot.mk none false [] [])
        (CharmConfig.mk none false "cnv" "INFO" "production" 8083 "cnv")).head? =
      some "bootstrap.servers=" :=
  ⟨rfl, C2_render_deterministic_total.2 (Snapshot.mk none false [] [])
    (CharmConfig.mk none false "cnv" "INFO" "production" 8083 "cnv") rfl⟩

/-! ### Drift detection and reconcile (src/src/charm.py) -/

/-- The set of property lines of a file or rendered list (Python set()). -/
def lineSet (lines : List String) : Finset String := lines.toFinset

/-- The Python symmetric-difference operator on sets of lines. -/
def symmDiffSet (a b : Finset String) : Finset String := (a \ b) ∪ (b \ a)

/-- The inline drift predicate of ConnectCharm.reconcile: the rendered and
previous line sets differ, or the explicit should_restart flag is set. -/
def needs_restart (previous rendered : List String) (flag : Bool) : Bool :=
  decide (symmDiffSet (lineSet rendered) (lineSet previous) ≠ ∅) || flag

inductive ReconcileOutcome
  | certRenewal
  | noop
  | waiting
  | restart
deriving DecidableEq

/-- ConnectCharm.reconcile, restricted to its control decision. The plugin
side effects preceding the drift check are modelled separately (C3, C9);
`sansChanged` abstracts tls_manager.sans_change_detected and the
should_restart flag is the unit databag flag at the time of the check. -/
def reconcile (s : Snapshot) (cfg : CharmConfig) (sansChanged : Bool)
    (diskFile : Option String) : ReconcileOutcome :=
  if PeerWorkersContext.tls_enabled s = true ∧ sansChanged = true then
    ReconcileOutcome.certRenewal
  else if symmDiffSet (lineSet (ConfigManager.properties s cfg))
      (lineSet (Workload.read diskFile)) = ∅
      ∧ WorkerUnitContext.should_restart s = false then
    ReconcileOutcome.noop
  else if Context.ready s = false then
    ReconcileOutcome.waiting
  else
    ReconcileOutcome.restart

theorem symmDiffSet_self (a : Finset String) : symmDiffSet a a = ∅ := by
  simp [symmDiffSet]

theorem symmDiffSet_eq_empty_iff (a b : Finset String) :
    symmDiffSet a b = ∅ ↔ a = b := by
  constructor
  · intro h
    simp only [symmDiffSet, Finset.union_eq_empty,
      Finset.sdiff_eq_empty_iff_subset] at h
    exact Finset.Subset.antisymm h.1 h.2
  · intro h
    rw [h]
    exact symmDiffSet_self b

/-- C1 counterexample: with a rendered/on-disk drift present but the
readiness precondition failing (no kafka-client relation), reconcile does
not restart, refuting "restarts exactly when the symmetric difference is
non-empty or the flag is set". -/
theorem C1_drift_detection_counterexample :
    ¬ (reconcile (Snapshot.mk none false [] [])
        (CharmConfig.mk none false "cnv" "INFO" "production" 8083 "cnv") false none =
          ReconcileOutcome.restart ↔
      (symmDiffSet
          (lineSet (ConfigManager.properties (Snapshot.mk none false [] [])
            (CharmConfig.mk none false "cnv" "INFO" "production" 8083 "cnv")))
          (lineSet (Workload.read none)) ≠ ∅
        ∨ WorkerUnitContext.should_restart (Snapshot.mk none false [] []) = true)) := by
  set_option maxRecDepth 4096 in decide

/-- C1 (amended): drift detection is a set-based diff — identical or merely
reordered line sets with a clear flag never signal a restart, a missing
previous file drifts exactly when the rendered set is non-empty — and
reconcile reconfigures and restarts exactly when no SANs-renewal early
return is taken, the symmetric difference is non-empty or the explicit
should_restart flag is set, AND the readiness precondition holds. -/
theorem C1_drift_detection :
    (∀ P : List String, needs_restart P P false = false)
    ∧ (∀ P Q : List String, P.toFinset = Q.toFinset → needs_restart Q P false = false)
    ∧ (∀ R : List String, (needs_restart [] R false = true ↔ R.toFinset ≠ ∅))
    ∧ (∀ (s : Snapshot) (cfg : CharmConfig) (sans : Bool) (diskFile : Option String),
        reconcile s cfg sans diskFile = ReconcileOutcome.restart ↔
          (¬ (PeerWorkersContext.tls_enabled s = true ∧ sans = true)
            ∧ (symmDiffSet (lineSet (ConfigManager.properties s cfg))
                (lineSet (Workload.read diskFile)) ≠ ∅
              ∨ WorkerUnitContext.should_restart s = true)
            ∧ Context.ready s = true)) := by
  refine ⟨?_, ?_, ?_, ?_⟩
  · intro P
    simp [needs_restart, symmDiffSet_self]
  · intro P Q h
    simp only [needs_restart, lineSet, h, symmDiffSet_self]
    simp
  · intro R
    simp only [needs_restart, lineSet, symmDiffSet, Bool.or_false,
      decide_eq_true_eq]
    simp
  · intro s cfg sans diskFile
    unfold reconcile
    split_ifs with h1 h2 h3
    · exact iff_of_false (by decide) (fun hc => hc.1 h1)
    · refine iff_of_false (by decide) (fun hc => ?_)
      rcases hc.2.1 with hd | hf
      · exact hd h2.1
      · exact absurd (h2.2.symm.trans hf) (by decide)
    · refine iff_of_false (by decide) (fun hc => ?_)
      exact absurd (hc.2.2.symm.trans h3) (by decide)
    · refine iff_of_true rfl ⟨h1, ?_, ?_⟩
      · by_cases hd : symmDiffSet (lineSet (ConfigManager.properties s cfg))
            (lineSet (Workload.read diskFile)) = ∅
        · right
          cases hsr : WorkerUnitContext.should_restart s with
          | true => rfl
          | false => exact absurd ⟨hd, hsr⟩ h2
        · exact Or.inl hd
      · cases hr : Context.ready s with
        | false => exact absurd hr h3
        | true => rfl

/-- Witness for C1 (amended): a reordered line list never signals drift. -/
theorem C1_drift_detection_witness :
    (["a", "b"] : List String).toFinset = (["b", "a"] : List String).toFinset ∧
    needs_restart ["b", "a"] ["a", "b"] false = false :=
  ⟨by decide, C1_drift_detection.2.1 ["a", "b"] ["b", "a"] (by decide)⟩

/-! ### ConnectManager plugins (src/src/managers/connect.py) -/

/-- Modelled from the spec: EMPTY_PLUGIN_CHECKSUM is imported by the
manager from literals, but its literal value is not present in the sources
under src; it is the well-known sha256 checksum of the intentionally-empty
placeholder tarball. Only its identity is compared by the code, so it is
modelled as a fixed distinguished string. -/
def EMPTY_PLUGIN_CHECKSUM : String := "empty-plugin-placeholder-sha256"

/-- File-system and flag state seen by ConnectManager: the visible plugin
directory names under PLUGIN_PATH (the plugins cache equals this listing,
since reload_plugins runs in the constructor and after every install) and
the unit's should_restart flag. -/
structure PluginState where
  dirs : List String
  restartFlag : Bool
deriving DecidableEq

/-- The directory name chosen by _create_plugin_dir: {prefix-}{checksum},
with the dash only for a non-empty (truthy) prefix. -/
def plugin_dir_name (pathPfx checksum : String) : String :=
  (if pathPfx ≠ "" then pathPfx ++ "-" else "") ++ checksum

/-- Result of one load_plugin call: the new state, whether a
CalledProcessError escaped (mkdir of an existing directory fails with
"File exists" on stderr), and which side effects ran. -/
structure LoadResult where
  state : PluginState
  raised : Bool
  createdDir : Option String
  extracted : Bool
  removedSource : Bool
deriving DecidableEq

/-- ConnectManager.load_plugin on the vm substrate: return early when the
resource is missing, when the checksum is already in the cache, or when it
is the empty-placeholder checksum; otherwise create the plugin directory
(raising if it already exists), extract, remove the source, reload the
cache and set the should_restart flag. -/
def load_plugin (st : PluginState) (srcExists : Bool) (checksum : String)
    (pathPfx : String) : LoadResult :=
  if srcExists = false then LoadResult.mk st false none false false
  else if checksum ∈ st.dirs then LoadResult.mk st false none false false
  else if checksum = EMPTY_PLUGIN_CHECKSUM then LoadResult.mk st false none false false
  else if plugin_dir_name pathPfx checksum ∈ st.dirs then
    LoadResult.mk st true none false false
  else
    LoadResult.mk (PluginState.mk (st.dirs ++ [plugin_dir_name pathPfx checksum]) true)
      false (some (plugin_dir_name pathPfx checksum)) true true

theorem load_plugin_installs (st : PluginState) (c pfx : String)
    (h1 : c ∉ st.dirs) (h2 : c ≠ EMPTY_PLUGIN_CHECKSUM)
    (h3 : plugin_dir_name pfx c ∉ st.dirs) :
    load_plugin st true c pfx =
      LoadResult.mk (PluginState.mk (st.dirs ++ [plugin_dir_name pfx c]) true)
        false (some (plugin_dir_name pfx c)) true true := by
  unfold load_plugin
  rw [if_neg (by decide : ¬(true = false)), if_neg h1, if_neg h2, if_neg h3]

theorem load_plugin_skips_cached (st : PluginState) (c pfx : String)
    (h1 : c ∈ st.dirs) :
    load_plugin st true c pfx = LoadResult.mk st false none false false := by
  unfold load_plugin
  rw [if_neg (by decide : ¬(true = false)), if_pos h1]

theorem load_plugin_raises (st : PluginState) (c pfx : String)
    (h1 : c ∉ st.dirs) (h2 : c ≠ EMPTY_PLUGIN_CHECKSUM)
    (h3 : plugin_dir_name pfx c ∈ st.dirs) :
    load_plugin st true c pfx = LoadResult.mk st true none false false := by
  unfold load_plugin
  rw [if_neg (by decide : ¬(true = false)), if_neg h1, if_neg h2, if_pos h3]

theorem plugin_dir_name_ne (pfx c : String) (h : pfx ≠ "") :
    plugin_dir_name pfx c ≠ c := by
  intro he
  have h2 := congrArg String.length he
  rw [plugin_dir_name, if_pos h, length_append, length_append] at h2
  have h3 : ("-" : String).length = 1 := rfl
  rw [h3] at h2
  omega

/-- C9: loading an existing resource whose checksum equals the well-known
empty-placeholder checksum is a no-op: no directory is created, nothing is
extracted, the source artifact is kept, and the should_restart flag is
untouched. -/
theorem C9_empty_plugin_noop (st : PluginState) (pathPfx : String) :
    load_plugin st true EMPTY_PLUGIN_CHECKSUM pathPfx =
      LoadResult.mk st false none false false := by
  unfold load_plugin
  by_cases h : EMPTY_PLUGIN_CHECKSUM ∈ st.dirs
  · rw [if_neg (by decide : ¬(true = false)), if_pos h]
  · rw [if_neg (by decide : ¬(true = false)), if_neg h, if_pos rfl]

/-- C3 counterexample: after installing checksum "c" with owner prefix "p",
the second identical call does not find the checksum in the reloaded cache
(the cache holds the directory name "p-c", and membership is exact), and it
raises a File exists error from mkdir instead of returning silently. -/
theorem C3_plugin_idempotence_counterexample :
    ("c" ∉ (load_plugin (PluginState.mk [] false) true "c" "p").state.dirs)
    ∧ (load_plugin (load_plugin (PluginState.mk [] false) true "c" "p").state
        true "c" "p").raised = true := by
  decide

/-- C3 (amended): installing the same checksum twice leaves exactly one
directory for it. With an empty prefix the second call finds the checksum
in the cache and returns with no directory creation, no extraction and no
flag change; with a non-empty owner prefix the cache lookup (which uses the
bare checksum) never matches the prefixed directory name, so the second
call attempts mkdir and raises File exists — still leaving exactly one
directory and changing nothing. -/
theorem C3_plugin_idempotence (dirs : List String) (flag : Bool) (c : String)
    (hnot : c ∉ dirs) (hne : c ≠ EMPTY_PLUGIN_CHECKSUM) :
    ((load_plugin (PluginState.mk dirs flag) true c "").state.dirs.count c = 1
      ∧ (load_plugin (PluginState.mk dirs flag) true c "").state.restartFlag = true
      ∧ load_plugin (load_plugin (PluginState.mk dirs flag) true c "").state true c "" =
          LoadResult.mk (load_plugin (PluginState.mk dirs flag) true c "").state
            false none false false)
    ∧ (∀ pfx : String, pfx ≠ "" → plugin_dir_name pfx c ∉ dirs →
        (load_plugin (PluginState.mk dirs flag) true c pfx).state.dirs.count
            (plugin_dir_name pfx c) = dirs.count (plugin_dir_name pfx c) + 1
        ∧ load_plugin (load_plugin (PluginState.mk dirs flag) true c pfx).state true c pfx =
            LoadResult.mk (load_plugin (PluginState.mk dirs flag) true c pfx).state
              true none false false) := by
  constructor
  · have hname : plugin_dir_name "" c = c := rfl
    have hr1 : load_plugin (PluginState.mk dirs flag) true c "" =
        LoadResult.mk (PluginState.mk (dirs ++ [c]) true) false (some c) true true := by
      have := load_plugin_installs (PluginState.mk dirs flag) c "" hnot hne
        (by rw [hname]; exact hnot)
      rw [hname] at this
      exact this
    rw [hr1]
    refine ⟨?_, rfl, ?_⟩
    · simp [List.count_append, List.count_eq_zero.mpr hnot]
    · exact load_plugin_skips_cached (PluginState.mk (dirs ++ [c]) true) c ""
        (by simp)
  · intro pfx hpfx hdirnot
    have hr1 : load_plugin (PluginState.mk dirs flag) true c pfx =
        LoadResult.mk (PluginState.mk (dirs ++ [plugin_dir_name pfx c]) true)
          false (some (plugin_dir_name pfx c)) true true :=
      load_plugin_installs (PluginState.mk dirs flag) c pfx hnot hne hdirnot
    rw [hr1]
    constructor
    · simp [List.count_append]
    · refine load_plugin_raises (PluginState.mk (dirs ++ [plugin_dir_name pfx c]) true)
        c pfx ?_ hne (by simp)
      intro hmem
      rcases List.mem_append.mp hmem with h | h
      · exact hnot h
      · rcases List.mem_singleton.mp h with h2
        exact plugin_dir_name_ne pfx c hpfx h2.symm

/-- Witness for C3 (amended) with checksum "c", empty store, and prefix "p". -/
theorem C3_plugin_idempotence_witness :
    ("c" ∉ ([] : List String)) ∧ "c" ≠ EMPTY_PLUGIN_CHECKSUM ∧
    ("p" ≠ "") ∧ (plugin_dir_name "p" "c" ∉ ([] : List String)) ∧
    ((load_plugin (PluginState.mk [] false) true "c" "").state.dirs.count "c" = 1
      ∧ (load_plugin (PluginState.mk [] false) true "c" "").state.restartFlag = true
      ∧ load_plugin (load_plugin (PluginState.mk [] false) true "c" "").state true "c" "" =
          LoadResult.mk (load_plugin (PluginState.mk [] false) true "c" "").state
            false none false false)
    ∧ ((load_plugin (PluginState.mk [] false) true "c" "p").state.dirs.count
          (plugin_dir_name "p" "c") = ([] : List String).count (plugin_dir_name "p" "c") + 1
        ∧ load_plugin (load_plugin (PluginState.mk [] false) true "c" "p").state true "c" "p" =
            LoadResult.mk (load_plugin (PluginState.mk [] false) true "c" "p").state
              true none false false) :=
  ⟨by decide, by decide, by decide, by decide,
    (C3_plugin_idempotence [] false "c" (by decide) (by decide)).1,
    (C3_plugin_idempotence [] false "c" (by decide) (by decide)).2 "p" (by decide) (by decide)⟩

/-- ConnectManager.remove_plugin: workload.remove("{plugins}/{pfx}*",
glob=True) deletes every entry under the plugin path whose name starts with
the prefix (the relation-{id} prefixes contain no glob metacharacters, so
the glob matches exactly the names extending the prefix). -/
def remove_plugin (dirs : List String) (pathPfx : String) : List String :=
  dirs.filter (fun name => !(pathPfx.data.isPrefixOf name.data))

/-- C5: removing a client relation's plugins deletes exactly the plugin
directories whose name starts with that relation's username, and leaves
every other directory in place. -/
theorem C5_remove_plugin_exact (dirs : List String) (rid : Nat) (name : String) :
    name ∈ remove_plugin dirs (relationUser rid) ↔
      (name ∈ dirs ∧ (relationUser rid).data.isPrefixOf name.data = false) := by
  simp [remove_plugin, List.mem_filter]

/-! ### load_plugin_from_url retry (src/src/managers/connect.py) -/

/-- stop_after_attempt argument of the load_plugin_from_url decorator. -/
def PLUGIN_RETRY_ATTEMPTS : Nat := 3

/-- wait_fixed argument (seconds) of the load_plugin_from_url decorator. -/
def PLUGIN_RETRY_WAIT_SECONDS : Nat := 2

/-- Outcome of one execution of the try body (download to a temp file,
then load_plugin): it returns, or a CalledProcessError escapes from the
workload commands (with or without "File exists" on stderr), or some other
exception (connection error, temp-file error) is raised. -/
inductive AttemptOutcome
  | ok
  | calledProcessError (fileExistsInStderr : Bool)
  | otherError

inductive BodyResult
  | success
  | raisedDownloadFailed
deriving DecidableEq

/-- One call of the decorated function with its exception handlers: a
CalledProcessError whose stderr holds "File exists" hits the early return;
one without it matches the same except clause, whose body then ends without
re-raising, so the function also returns normally; any other exception is
re-raised as PluginDownloadFailedError. -/
def runBody : AttemptOutcome → BodyResult
  | AttemptOutcome.ok => BodyResult.success
  | AttemptOutcome.calledProcessError fileExistsInStderr =>
    if fileExistsInStderr then BodyResult.success else BodyResult.success
  | AttemptOutcome.otherError => BodyResult.raisedDownloadFailed

/-- The tenacity loop: retry only on PluginDownloadFailedError, at most
`fuel` calls, re-raising after the last one (reraise=True); the second
component counts the calls made. -/
def retryLoop (fuel : Nat) (att : Nat → AttemptOutcome) (i : Nat) :
    BodyResult × Nat :=
  match fuel with
  | 0 => (BodyResult.raisedDownloadFailed, 0)
  | n + 1 =>
    match runBody (att i) with
    | BodyResult.success => (BodyResult.success, 1)
    | BodyResult.raisedDownloadFailed =>
      ((retryLoop n att (i + 1)).1, (retryLoop n att (i + 1)).2 + 1)

def load_plugin_from_url (att : Nat → AttemptOutcome) : BodyResult × Nat :=
  retryLoop PLUGIN_RETRY_ATTEMPTS att 0

/-- C4: the retry policy is 3 fixed-wait-2s attempts re-raising download
failures after exhaustion, and a File exists error is success; but an
install-time CalledProcessError whose stderr lacks "File exists" (e.g. a
corrupt tarball) is swallowed: the call returns success after a single
attempt instead of propagating the error to the caller. -/
theorem C4_install_error_swallowed :
    load_plugin_from_url (fun _ => AttemptOutcome.calledProcessError false) =
      (BodyResult.success, 1)
    ∧ PLUGIN_RETRY_ATTEMPTS = 3 ∧ PLUGIN_RETRY_WAIT_SECONDS = 2
    ∧ load_plugin_from_url (fun _ => AttemptOutcome.otherError) =
        (BodyResult.raisedDownloadFailed, 3)
    ∧ load_plugin_from_url (fun _ => AttemptOutcome.calledProcessError true) =
        (BodyResult.success, 1) := by
  decide

/-! ### health_check retry (src/src/managers/connect.py) -/

/-- stop_after_attempt argument of the health_check decorator. -/
def HEALTH_CHECK_ATTEMPTS : Nat := 5

/-- wait_fixed argument (seconds) of the health_check decorator. -/
def HEALTH_CHECK_WAIT_SECONDS : Nat := 3

/-- One REST probe: none when the ping or the JSON parsing raised; resp
carries the HTTP status and whether the body holds kafka_cluster_id. -/
inductive ProbeOutcome
  | err
  | resp (status : Nat) (hasClusterId : Bool)

/-- One health_check body execution: none models a raised exception,
otherwise the boolean per status 200 and the kafka_cluster_id field. -/
def attemptCheck : ProbeOutcome → Option Bool
  | ProbeOutcome.err => none
  | ProbeOutcome.resp status hasId =>
    if status ≠ 200 then some false
    else if hasId = false then some false
    else some true

/-- The tenacity loop of health_check: retry while the result is False or
an exception was raised, at most `fuel` calls; retry_error_callback makes
the exhausted call return False instead of raising. The second component
counts the calls made. -/
def healthLoop (fuel : Nat) (att : Nat → ProbeOutcome) (i : Nat) : Bool × Nat :=
  match fuel with
  | 0 => (false, 0)
  | n + 1 =>
    match attemptCheck (att i) with
    | some true => (true, 1)
    | _ => ((healthLoop n att (i + 1)).1, (healthLoop n att (i + 1)).2 + 1)

def health_check (att : Nat → ProbeOutcome) : Bool :=
  (healthLoop HEALTH_CHECK_ATTEMPTS att 0).1

def health_check_attempts (att : Nat → ProbeOutcome) : Nat :=
  (healthLoop HEALTH_CHECK_ATTEMPTS att 0).2

theorem healthLoop_true_iff (fuel : Nat) (att : Nat → ProbeOutcome) (i : Nat) :
    (healthLoop fuel att i).1 = true ↔
      ∃ j, j < fuel ∧ attemptCheck (att (i + j)) = some true := by
  induction fuel generalizing i with
  | zero => simp [healthLoop]
  | succ n ih =>
    simp only [healthLoop]
    cases hc : attemptCheck (att i) with
    | none =>
      simp only
      rw [ih (i + 1)]
      constructor
      · rintro ⟨j, hj, hcj⟩
        exact ⟨j + 1, by omega, by rw [show i + (j + 1) = i + 1 + j by omega]; exact hcj⟩
      · rintro ⟨j, hj, hcj⟩
        cases j with
        | zero => rw [Nat.add_zero] at hcj; rw [hcj] at hc; cases hc
        | succ m =>
          exact ⟨m, by omega, by rw [show i + 1 + m = i + (m + 1) by omega]; exact hcj⟩
    | some b =>
      cases b with
      | true =>
        simp only
        constructor
        · intro _
          exact ⟨0, by omega, by rw [Nat.add_zero]; exact hc⟩
        · intro _
          trivial
      | false =>
        simp only
        rw [ih (i + 1)]
        constructor
        · rintro ⟨j, hj, hcj⟩
          exact ⟨j + 1, by omega, by rw [show i + (j + 1) = i + 1 + j by omega]; exact hcj⟩
        · rintro ⟨j, hj, hcj⟩
          cases j with
          | zero =>
            rw [Nat.add_zero] at hcj
            rw [hcj] at hc
            cases hc
          | succ m =>
            exact ⟨m, by omega, by rw [show i + 1 + m = i + (m + 1) by omega]; exact hcj⟩

theorem healthLoop_count_le (fuel : Nat) (att : Nat → ProbeOutcome) (i : Nat) :
    (healthLoop fuel att i).2 ≤ fuel := by
  induction fuel generalizing i with
  | zero => simp [healthLoop]
  | succ n ih =>
    simp only [healthLoop]
    cases attemptCheck (att i) with
    | none =>
      simp only
      have := ih (i + 1)
      omega
    | some b =>
      cases b with
      | true => simp
      | false =>
        simp only
        have := ih (i + 1)
        omega

/-- C8: health_check is a bounded probe: the retry policy is 5 attempts
with a 3-second fixed delay, a single attempt succeeds exactly when the
response status is 200 and the JSON body holds kafka_cluster_id, the call
returns true exactly when one of the first 5 attempts succeeds, it makes
at most 5 attempts, and it returns a plain boolean (False after
exhaustion, by retry_error_callback) rather than raising. -/
theorem C8_health_check_bounded :
    HEALTH_CHECK_ATTEMPTS = 5 ∧ HEALTH_CHECK_WAIT_SECONDS = 3
    ∧ (∀ (st : Nat) (hid : Bool),
        attemptCheck (ProbeOutcome.resp st hid) = some true ↔ (st = 200 ∧ hid = true))
    ∧ (∀ att : Nat → ProbeOutcome,
        health_check att = true ↔ ∃ i, i < 5 ∧ attemptCheck (att i) = some true)
    ∧ (∀ att : Nat → ProbeOutcome, health_check_attempts att ≤ 5) := by
  refine ⟨rfl, rfl, ?_, ?_, ?_⟩
  · intro st hid
    constructor
    · intro h
      simp only [attemptCheck] at h
      by_cases hst : st = 200
      · subst hst
        cases hid with
        | false => simp at h
        | true => exact ⟨rfl, rfl⟩
      · rw [if_pos hst] at h
        exact absurd h (by simp)
    · rintro ⟨h1, h2⟩
      subst h1
      subst h2
      rfl
  · intro att
    rw [show health_check att = (healthLoop 5 att 0).1 from rfl]
    rw [healthLoop_true_iff 5 att 0]
    constructor
    · rintro ⟨j, hj, hcj⟩
      exact ⟨j, hj, by simpa using hcj⟩
    · rintro ⟨j, hj, hcj⟩
      exact ⟨j, hj, by simpa using hcj⟩
  · intro att
    exact healthLoop_count_le HEALTH_CHECK_ATTEMPTS att 0
